import Mathlib

/-
Verification of `validate_phase_encoding.py`, a linter that validates and
optionally repairs the `PhaseEncodingDirection` field of BIDS DWI JSON
sidecar files.

Shallow embedding conventions:
* A parsed JSON document is a `JVal`; a Python `dict` produced by
  `json.loads` is an association list `JObj` (keys unique in practice,
  the lemmas do not assume it).
* The on-disk content of a file is modelled post-parse as `Option JVal`:
  `none` stands for a file whose text is unreadable or not valid JSON
  (the `try: read_text; json.loads` block fails), `some v` for a file
  holding the serialization of `v`.  "The written content is valid JSON"
  is rendered as "the new content is `some (JVal.obj _)`".
* Python exceptions that the script does not catch (the `TypeError` from
  testing an unhashable value for membership in the `VALID_DIRECTIONS`
  set, the `AttributeError` from calling `.upper()` on a non-string or
  `.get` on a non-dict, and an `OSError` from `write_text`) are modelled
  by `VRes.exn`; the single `try/except` around read+parse is the only
  handler in the script.
* Whether the one `write_text` call would succeed is an environment fact,
  passed in as the boolean `w`; a failed write is modelled as leaving the
  previous content (byte-level partial writes are outside the model).
-/

namespace PhaseEnc

/-- JSON values, as produced by `json.loads`. -/
inductive JVal where
  | null
  | bool (b : Bool)
  | num (n : Int)
  | str (s : String)
  | arr (xs : List JVal)
  | obj (kvs : List (String × JVal))

/-- A parsed JSON object: a Python dict with string keys. -/
abbrev JObj := List (String × JVal)

/-- Python `dict` lookup (`meta[k]` / the hit case of `meta.get(k)`). -/
def objGet : JObj → String → Option JVal
  | [], _ => none
  | (k1, v) :: rest, k => if k1 = k then some v else objGet rest k

/-- Python `dict` assignment `meta[k] = v`: replace the value at an
existing key in place, else append the new binding at the end. -/
def objSet : JObj → String → JVal → JObj
  | [], k, v => [(k, v)]
  | (k1, v1) :: rest, k, v =>
      if k1 = k then (k1, v) :: rest else (k1, v1) :: objSet rest k v

/-- `meta.get(k)`: a missing key yields Python `None`, which coincides
with the translation of JSON `null`. -/
def getPy (m : JObj) (k : String) : JVal :=
  (objGet m k).getD JVal.null

/-- Python truthiness of a JSON-derived value (`bool(v)`). -/
def truthy : JVal → Bool
  | .null => false
  | .bool b => b
  | .num n => n != 0
  | .str s => s != ""
  | .arr xs => !xs.isEmpty
  | .obj kvs => !kvs.isEmpty

/-- Values that Python can hash: testing an `arr` or `obj` value for set
membership raises `TypeError: unhashable type`. -/
def hashableV : JVal → Bool
  | .arr _ => false
  | .obj _ => false
  | _ => true

/-- Is the value a JSON string? -/
def isStrV : JVal → Bool
  | .str _ => true
  | _ => false

/-- Values on which `(v or fallback).upper()` does not raise when `v` is
kept or replaced: strings are fine, and falsy values are replaced by the
(string) fallback. -/
def strOrFalsy (v : JVal) : Bool :=
  isStrV v || !truthy v

/- ### String utilities (Python `str.upper`, `in`, glob fragments) -/

/-- Does the character list start with the given pattern list? -/
def lStarts : List Char → List Char → Bool
  | _, [] => true
  | [], _ :: _ => false
  | c :: cs, d :: ds => c == d && lStarts cs ds

/-- Does `s` contain `sub` as a contiguous subsequence?  (Python
`sub in s` on strings.) -/
def containsL (s sub : List Char) : Bool :=
  match s with
  | [] => sub.isEmpty
  | _ :: cs => lStarts s sub || containsL cs sub

/-- Python `sub in s` for strings. -/
def sContains (s sub : String) : Bool :=
  containsL s.data sub.data

/-- Does the string start with the given pattern? -/
def sStarts (s pat : String) : Bool :=
  lStarts s.data pat.data

/-- Does the string end with the given pattern? -/
def sEnds (s pat : String) : Bool :=
  lStarts s.data.reverse pat.data.reverse

/-- Python `str.upper()` (ASCII case mapping, the range used here). -/
def strUpper (s : String) : String :=
  String.mk (s.data.map Char.toUpper)

/- ### The source constants and inference chain -/

/-- `VALID_DIRECTIONS = {"i", "i-", "j", "j-", "k", "k-"}` (line 25). -/
def VALID_DIRECTIONS : List String := ["i", "i-", "j", "j-", "k", "k-"]

/-- `ped in VALID_DIRECTIONS` for a hashable value: only a string can be
a member of the set of six direction strings. -/
def pedOk : JVal → Bool
  | .str s => VALID_DIRECTIONS.contains s
  | _ => false

/-- The ordered if-chain of `infer_direction_from_dir` (lines 31-43),
applied to the already-uppercased token. -/
def inferChain (u : String) : Option String :=
  if sContains u "PA" then some "j-"
  else if sContains u "AP" then some "j"
  else if sContains u "RL" then some "i"
  else if sContains u "LR" then some "i-"
  else if sContains u "SI" then some "k"
  else if sContains u "IS" then some "k-"
  else none

/-- Uppercase the hint token, then run the chain (`.upper()` composed
with the chain of lines 31-43). -/
def inferFromToken (s : String) : Option String :=
  inferChain (strUpper s)

/-- The fixed, ordered rule list of the spec: substring pattern paired
with resulting direction, in the order the source tests them. -/
def RULES : List (String × String) :=
  [("PA", "j-"), ("AP", "j"), ("RL", "i"), ("LR", "i-"), ("SI", "k"), ("IS", "k-")]

/-- Spec-side restatement of the inference rule: first-match-wins scan of
an ordered (pattern, result) list over substring containment. -/
def specFirstMatch (u : String) : List (String × String) → Option String
  | [] => none
  | (pat, res) :: rest =>
      if sContains u pat then some res else specFirstMatch u rest

/-- Python exceptions that can escape the script's own handlers. -/
inductive PyError where
  | typeError
  | attributeError
  | osError
  deriving DecidableEq

/-- `infer_direction_from_dir(meta, path)` (lines 28-43):
`name = (meta.get("dir") or path.name).upper()`, then the chain.
Calling `.upper()` on a truthy non-string `dir` value raises
`AttributeError`. -/
def infer_direction_from_dir (meta : JObj) (pathName : String) :
    Except PyError (Option String) :=
  match (if truthy (getPy meta "dir") then getPy meta "dir" else JVal.str pathName) with
  | .str s => .ok (inferFromToken s)
  | _ => .error .attributeError

/- ### validate_json -/

/-- Per-file validation outcome, following the five print branches of
`validate_json`. -/
inductive Outcome where
  | valid
  | parseError
  | invalidUnfixed
  | invalidUninferable
  | fixed
  deriving DecidableEq

/-- Result of running `validate_json` on one file: a normal return with
an outcome, or an uncaught Python exception. -/
inductive VRes where
  | ok (o : Outcome)
  | exn (e : PyError)
  deriving DecidableEq

/-- `validate_json` returns `True` exactly for the Valid and Fixed
outcomes (lines 59 and 69). -/
def retTrue : Outcome → Bool
  | .valid => true
  | .fixed => true
  | _ => false

/-- The target field key. -/
def targetKey : String := "PhaseEncodingDirection"

/-- `validate_json(json_path, fix)` (lines 46-72), over the modelled
content `c` of the file at `pathName`; `w` tells whether the single
`write_text` call would succeed.  Returns the result together with the
content of the file afterwards. -/
def validate_json (c : Option JVal) (pathName : String) (fix w : Bool) :
    VRes × Option JVal :=
  match c with
  | none => (VRes.ok .parseError, none)
  | some (JVal.obj meta) =>
      if hashableV (getPy meta targetKey) then
        if pedOk (getPy meta targetKey) then
          (VRes.ok .valid, some (JVal.obj meta))
        else if fix then
          match infer_direction_from_dir meta pathName with
          | .error e => (VRes.exn e, some (JVal.obj meta))
          | .ok none => (VRes.ok .invalidUninferable, some (JVal.obj meta))
          | .ok (some g) =>
              if w then
                (VRes.ok .fixed, some (JVal.obj (objSet meta targetKey (JVal.str g))))
              else (VRes.exn .osError, some (JVal.obj meta))
        else (VRes.ok .invalidUnfixed, some (JVal.obj meta))
      else (VRes.exn .typeError, some (JVal.obj meta))
  | some v => (VRes.exn .attributeError, some v)

/-- Does the (modelled) file content hold a valid target field, i.e.
would `validate_json` report Valid on it? -/
def fieldValid (c : Option JVal) : Bool :=
  match c with
  | some (JVal.obj m) => hashableV (getPy m targetKey) && pedOk (getPy m targetKey)
  | _ => false

/- ### The run loop of `main` (lines 84-98) -/

/-- One discovered file: its leaf name (`path.name`) and its modelled
content. -/
structure FileSt where
  pathName : String
  content : Option JVal

/-- Result of the `for js in json_files` loop: the files with their
contents after processing, the `n_valid` counter, and the exception that
aborted the loop, if any. -/
structure RunResult where
  files : List FileSt
  nValid : Nat
  err : Option PyError

/-- The sequential loop of `main`: each file is validated in turn; an
uncaught exception aborts the loop, leaving later files unprocessed. -/
def runFiles (fix w : Bool) : List FileSt → RunResult
  | [] => ⟨[], 0, none⟩
  | f :: fs =>
      match validate_json f.content f.pathName fix w with
      | (VRes.exn e, c2) => ⟨⟨f.pathName, c2⟩ :: fs, 0, some e⟩
      | (VRes.ok o, c2) =>
          let r := runFiles fix w fs
          ⟨⟨f.pathName, c2⟩ :: r.files, (if retTrue o then 1 else 0) + r.nValid, r.err⟩

/-- Process exit status of `main` on a discovered file list: `1` via
`sys.exit(1)` when no files were found (lines 85-87), `1` when an
uncaught exception kills the interpreter, `0` when the loop completes. -/
def mainExit (files : List FileSt) (fix w : Bool) : Nat :=
  if files.isEmpty then 1
  else
    match (runFiles fix w files).err with
    | some _ => 1
    | none => 0

/- ### File discovery: `bids_root.rglob("sub-*/**/dwi/*.json")` -/

/-- One component of a `pathlib` glob pattern, restricted to the shapes
occurring in the source pattern: `**`, a literal name, a `p*` pattern and
a `*s` pattern. -/
inductive CPat where
  | starstar
  | lit (s : String)
  | startsP (x : String)
  | endsP (x : String)

/-- All suffixes of a component list (`**` may skip zero or more leading
directories). -/
def tailsL : List String → List (List String)
  | [] => [[]]
  | c :: cs => (c :: cs) :: tailsL cs

/-- `pathlib` glob matching of a component pattern list against the
components of a path relative to the root; `**` matches zero or more
directories. -/
def globMatch : List CPat → List String → Bool
  | [], cs => cs.isEmpty
  | .starstar :: ps, cs => (tailsL cs).any (fun t => globMatch ps t)
  | .lit s :: ps, cs =>
      match cs with
      | [] => false
      | c :: cs2 => (c == s) && globMatch ps cs2
  | .startsP x :: ps, cs =>
      match cs with
      | [] => false
      | c :: cs2 => sStarts c x && globMatch ps cs2
  | .endsP x :: ps, cs =>
      match cs with
      | [] => false
      | c :: cs2 => sEnds c x && globMatch ps cs2

/-- The discovery pattern of line 84: `rglob(p)` is `glob("**/" + p)`, so
the matched pattern is `**/sub-*/**/dwi/*.json`. -/
def dwiPattern : List CPat :=
  [CPat.starstar, CPat.startsP "sub-", CPat.starstar, CPat.lit "dwi", CPat.endsP ".json"]

/-- The claim's characterization of discovery: the file name ends in
`.json`, its immediate parent component is literally `dwi`, and some
strictly higher ancestor component under the root starts with `sub-`. -/
def claimMatch (comps : List String) : Prop :=
  ∃ init f, comps = init ++ ["dwi", f] ∧ sEnds f ".json" = true ∧
    ∃ s, s ∈ init ∧ sStarts s "sub-" = true

/- ### Helper lemmas: dict update -/

theorem objGet_objSet_self (m : JObj) (k : String) (v : JVal) :
    objGet (objSet m k v) k = some v := by
  induction m with
  | nil => simp [objSet, objGet]
  | cons kv rest ih =>
      obtain ⟨k1, v1⟩ := kv
      by_cases h1 : k1 = k
      · subst h1
        simp [objSet, objGet]
      · simp [objSet, objGet, h1, ih]

theorem objGet_objSet_ne (m : JObj) (k k2 : String) (v : JVal) (h : k2 ≠ k) :
    objGet (objSet m k v) k2 = objGet m k2 := by
  induction m with
  | nil => simp [objSet, objGet, Ne.symm h]
  | cons kv rest ih =>
      obtain ⟨k1, v1⟩ := kv
      by_cases h1 : k1 = k
      · subst h1
        simp [objSet, objGet, Ne.symm h]
      · by_cases h2 : k1 = k2
        · simp [objSet, objGet, h1, h2, h]
        · simp [objSet, objGet, h1, h2, ih]

/- ### Helper lemmas: inference -/

theorem inferChain_mem (u g : String) (h : inferChain u = some g) :
    VALID_DIRECTIONS.contains g = true := by
  unfold inferChain at h
  split_ifs at h <;> simp only [Option.some.injEq] at h <;> subst h <;> decide

theorem infer_ok_mem (meta : JObj) (p g : String)
    (h : infer_direction_from_dir meta p = .ok (some g)) :
    VALID_DIRECTIONS.contains g = true := by
  unfold infer_direction_from_dir at h
  split at h
  next s heq =>
    simp only [Except.ok.injEq] at h
    exact inferChain_mem _ _ h
  next => simp at h

/- ### Helper lemmas: validate_json case structure -/

theorem validate_none (p : String) (fix w : Bool) :
    validate_json none p fix w = (VRes.ok .parseError, none) := rfl

theorem validate_fixed_iff (c : Option JVal) (p : String) (fix w : Bool) (c2 : Option JVal) :
    validate_json c p fix w = (VRes.ok .fixed, c2) ↔
      ∃ meta g, c = some (JVal.obj meta)
        ∧ hashableV (getPy meta targetKey) = true
        ∧ pedOk (getPy meta targetKey) = false
        ∧ fix = true ∧ w = true
        ∧ infer_direction_from_dir meta p = .ok (some g)
        ∧ c2 = some (JVal.obj (objSet meta targetKey (JVal.str g))) := by
  constructor
  · intro h
    cases c with
    | none => simp [validate_json] at h
    | some v =>
        cases v with
        | null => simp [validate_json] at h
        | bool b => simp [validate_json] at h
        | num n => simp [validate_json] at h
        | str s => simp [validate_json] at h
        | arr xs => simp [validate_json] at h
        | obj meta =>
            cases h1 : hashableV (getPy meta targetKey) with
            | false => simp [validate_json, h1] at h
            | true =>
              cases h2 : pedOk (getPy meta targetKey) with
              | true => simp [validate_json, h1, h2] at h
              | false =>
                cases hfix : fix with
                | false => simp [validate_json, h1, h2, hfix] at h
                | true =>
                  cases hinf : infer_direction_from_dir meta p with
                  | error e => simp [validate_json, h1, h2, hfix, hinf] at h
                  | ok og =>
                      cases og with
                      | none => simp [validate_json, h1, h2, hfix, hinf] at h
                      | some g =>
                          cases hw : w with
                          | false => simp [validate_json, h1, h2, hfix, hinf, hw] at h
                          | true =>
                              simp only [validate_json, h1, h2, hfix, hinf, hw,
                                if_true, if_false, Bool.false_eq_true, ite_true,
                                ite_false, Prod.mk.injEq] at h
                              exact ⟨meta, g, rfl, h1, h2, rfl, rfl, hinf, h.2.symm⟩
  · rintro ⟨meta, g, rfl, h1, h2, rfl, rfl, hinf, rfl⟩
    simp [validate_json, h1, h2, hinf]

theorem validate_snd (c : Option JVal) (p : String) (fix w : Bool) :
    (validate_json c p fix w).1 = VRes.ok .fixed ∨ (validate_json c p fix w).2 = c := by
  cases c with
  | none => right; rfl
  | some v =>
      cases v with
      | null => right; rfl
      | bool b => right; rfl
      | num n => right; rfl
      | str s => right; rfl
      | arr xs => right; rfl
      | obj meta =>
          cases h1 : hashableV (getPy meta targetKey) with
          | false => right; simp [validate_json, h1]
          | true =>
            cases h2 : pedOk (getPy meta targetKey) with
            | true => right; simp [validate_json, h1, h2]
            | false =>
              cases hfix : fix with
              | false => right; simp [validate_json, h1, h2, hfix]
              | true =>
                cases hinf : infer_direction_from_dir meta p with
                | error e => right; simp [validate_json, h1, h2, hfix, hinf]
                | ok og =>
                    cases og with
                    | none => right; simp [validate_json, h1, h2, hfix, hinf]
                    | some g =>
                        cases hw : w with
                        | false => right; simp [validate_json, h1, h2, hfix, hinf, hw]
                        | true => left; simp [validate_json, h1, h2, hfix, hinf, hw]

theorem validate_of_fieldValid (c : Option JVal) (p : String) (fix w : Bool)
    (h : fieldValid c = true) :
    validate_json c p fix w = (VRes.ok .valid, c) := by
  cases c with
  | none => simp [fieldValid] at h
  | some v =>
      cases v with
      | null => simp [fieldValid] at h
      | bool b => simp [fieldValid] at h
      | num n => simp [fieldValid] at h
      | str s => simp [fieldValid] at h
      | arr xs => simp [fieldValid] at h
      | obj meta =>
          simp only [fieldValid, Bool.and_eq_true] at h
          simp [validate_json, h.1, h.2]

theorem fieldValid_set (meta : JObj) (g : String)
    (hg : VALID_DIRECTIONS.contains g = true) :
    fieldValid (some (JVal.obj (objSet meta targetKey (JVal.str g)))) = true := by
  have hg2 : g ∈ VALID_DIRECTIONS := by simpa using hg
  simp [fieldValid, getPy, objGet_objSet_self, hashableV, pedOk, hg2]

theorem lStarts_map (f : Char → Char) :
    ∀ s sub : List Char, lStarts s sub = true → lStarts (s.map f) (sub.map f) = true := by
  intro s sub
  induction sub generalizing s with
  | nil => intro _; cases s <;> rfl
  | cons d ds ih =>
      intro h
      cases s with
      | nil => exact absurd h (by simp [lStarts])
      | cons c cs =>
          simp only [lStarts, Bool.and_eq_true, beq_iff_eq] at h
          simp only [List.map_cons, lStarts, Bool.and_eq_true, beq_iff_eq]
          exact ⟨congrArg f h.1, ih cs h.2⟩

theorem containsL_map (f : Char → Char) :
    ∀ s sub : List Char, containsL s sub = true → containsL (s.map f) (sub.map f) = true := by
  intro s sub
  induction s with
  | nil =>
      simp only [containsL, List.map_nil, List.isEmpty_eq_true]
      intro h
      simp [h]
  | cons c cs ih =>
      simp only [containsL, List.map_cons, Bool.or_eq_true]
      rintro (h | h)
      · exact Or.inl (lStarts_map f (c :: cs) sub h)
      · exact Or.inr (ih h)

theorem sContains_upper (s sub : String) (hfix : sub.data.map Char.toUpper = sub.data)
    (h : sContains s sub = true) : sContains (strUpper s) sub = true := by
  have h2 := containsL_map Char.toUpper s.data sub.data h
  rw [hfix] at h2
  exact h2

theorem infer_ok_of_strOrFalsy (meta : JObj) (p : String)
    (h : strOrFalsy (getPy meta "dir") = true) :
    ∃ og, infer_direction_from_dir meta p = .ok og := by
  unfold infer_direction_from_dir
  cases ht : truthy (getPy meta "dir") with
  | false =>
      simp only [ht, Bool.false_eq_true, if_false]
      exact ⟨inferFromToken p, rfl⟩
  | true =>
      simp only [strOrFalsy, ht, Bool.not_true, Bool.or_false] at h
      cases hd : getPy meta "dir" with
      | str s => simp [ht, hd]
      | null => rw [hd] at h; simp [isStrV] at h
      | bool b => rw [hd] at h; simp [isStrV] at h
      | num n => rw [hd] at h; simp [isStrV] at h
      | arr xs => rw [hd] at h; simp [isStrV] at h
      | obj kvs => rw [hd] at h; simp [isStrV] at h

/- ### Claim C1 -/

/-- Claim C1: the inference algorithm is a first-match-wins ordered scan
over substring containment on the uppercased hint token, in the fixed
order PA, AP, RL, LR, SI, IS (the rule list `RULES`); in particular a
token whose uppercasing contains both `"PA"` and `"AP"` infers `"j-"`
(not `"j"`), and a token containing none of the six codes infers
nothing. -/
theorem claim1_infer_first_match (s : String) :
    inferFromToken s = specFirstMatch (strUpper s) RULES
    ∧ (sContains (strUpper s) "PA" = true → sContains (strUpper s) "AP" = true →
        inferFromToken s = some "j-")
    ∧ (sContains s "PA" = true → sContains s "AP" = true → inferFromToken s = some "j-")
    ∧ ((∀ r ∈ RULES, sContains (strUpper s) r.1 = false) → inferFromToken s = none) := by
  refine ⟨rfl, ?_, ?_, ?_⟩
  · intro h1 _
    simp [inferFromToken, inferChain, h1]
  · intro h1 _
    have h2 := sContains_upper s "PA" (by decide) h1
    simp [inferFromToken, inferChain, h2]
  · intro h
    have h1 := h ("PA", "j-") (by simp [RULES])
    have h2 := h ("AP", "j") (by simp [RULES])
    have h3 := h ("RL", "i") (by simp [RULES])
    have h4 := h ("LR", "i-") (by simp [RULES])
    have h5 := h ("SI", "k") (by simp [RULES])
    have h6 := h ("IS", "k-") (by simp [RULES])
    simp [inferFromToken, inferChain, h1, h2, h3, h4, h5, h6]

/-- Claim C1 witness: a token containing both `PA` and `AP` infers `j-`;
a DWI sidecar leaf name containing none of the codes infers nothing. -/
theorem claim1_witness :
    inferFromToken "apPAx" = some "j-"
    ∧ inferFromToken "dir-PAAP" = some "j-"
    ∧ inferFromToken "sub-03_dwi.json" = none := by
  refine ⟨?_, ?_, ?_⟩
  · exact (claim1_infer_first_match "apPAx").2.1 (by decide) (by decide)
  · exact (claim1_infer_first_match "dir-PAAP").2.2.1 (by decide) (by decide)
  · exact (claim1_infer_first_match "sub-03_dwi.json").2.2.2 (by decide)

/- ### Claim C2 -/

/-- Claim C2 counterexample: exceptions do escape per-file validation.
A target field holding a JSON array makes the membership test
`ped in VALID_DIRECTIONS` raise an uncaught `TypeError`, and a truthy
non-string `dir` value makes `.upper()` raise an uncaught
`AttributeError` when fixing. -/
theorem claim2_counterexample :
    (validate_json (some (JVal.obj [(targetKey, JVal.arr [])])) "sub-01_dwi.json" false true).1
        = VRes.exn .typeError
    ∧ (validate_json (some (JVal.obj [("dir", JVal.num 5)])) "sub-02_dwi.json" true true).1
        = VRes.exn .attributeError := by
  constructor <;> rfl

/-- Claim C2 amended: reading and parsing failures become the Parse-Error
outcome, and per-file validation raises no exception provided the parsed
top level is a JSON object whose target field is absent or hashable
(string, number, boolean, null), whose `dir` value is a string or falsy
when fixing is enabled, and whose write (if one happens) succeeds; in
that setting a present non-string target field yields the Invalid
outcome (with fixing disabled), never a fault.  Unhashable target values
and truthy non-string `dir` values are excluded: they raise (see the
counterexample). -/
theorem claim2_no_escape_restricted :
    (∀ (p : String) (fix : Bool), ∃ o c2, validate_json none p fix true = (VRes.ok o, c2))
    ∧ (∀ (meta : JObj) (p : String) (fix : Bool),
        hashableV (getPy meta targetKey) = true →
        (fix = true → strOrFalsy (getPy meta "dir") = true) →
        ∃ o c2, validate_json (some (JVal.obj meta)) p fix true = (VRes.ok o, c2))
    ∧ (∀ (meta : JObj) (p : String) (w : Bool),
        hashableV (getPy meta targetKey) = true →
        isStrV (getPy meta targetKey) = false →
        validate_json (some (JVal.obj meta)) p false w
          = (VRes.ok .invalidUnfixed, some (JVal.obj meta))) := by
  refine ⟨fun p fix => ⟨.parseError, none, rfl⟩, ?_, ?_⟩
  · intro meta p fix h1 hsf
    cases h2 : pedOk (getPy meta targetKey) with
    | true => exact ⟨.valid, some (JVal.obj meta), by simp [validate_json, h1, h2]⟩
    | false =>
        cases fix with
        | false =>
            exact ⟨.invalidUnfixed, some (JVal.obj meta), by simp [validate_json, h1, h2]⟩
        | true =>
            obtain ⟨og, hinf⟩ := infer_ok_of_strOrFalsy meta p (hsf rfl)
            cases og with
            | none =>
                exact ⟨.invalidUninferable, some (JVal.obj meta),
                  by simp [validate_json, h1, h2, hinf]⟩
            | some g =>
                exact ⟨.fixed, some (JVal.obj (objSet meta targetKey (JVal.str g))),
                  by simp [validate_json, h1, h2, hinf]⟩
  · intro meta p w h1 hstr
    have h2 : pedOk (getPy meta targetKey) = false := by
      cases hv : getPy meta targetKey <;> simp_all [pedOk, isStrV]
    simp [validate_json, h1, h2]

/-- Claim C2 amended witness: a file with a numeric target field and a
string `dir` hint validates without a fault. -/
theorem claim2_witness :
    ∃ o c2, validate_json
        (some (JVal.obj [(targetKey, JVal.num 3), ("dir", JVal.str "PA")]))
        "x.json" true true = (VRes.ok o, c2) :=
  claim2_no_escape_restricted.2.1 [(targetKey, JVal.num 3), ("dir", JVal.str "PA")]
    "x.json" true (by decide) (fun _ => by decide)

/- ### Claim C3 -/

/-- Claim C3: a successful fix rewrites the file with (the serialization
of) a JSON object—valid JSON by construction—in which the target field
holds exactly the inferred direction (replaced if present, appended
otherwise) and every other key keeps its original value. -/
theorem claim3_fix_preserves (c : Option JVal) (p : String) (fix w : Bool) (c2 : Option JVal)
    (h : validate_json c p fix w = (VRes.ok .fixed, c2)) :
    ∃ meta g, c = some (JVal.obj meta)
      ∧ infer_direction_from_dir meta p = .ok (some g)
      ∧ c2 = some (JVal.obj (objSet meta targetKey (JVal.str g)))
      ∧ objGet (objSet meta targetKey (JVal.str g)) targetKey = some (JVal.str g)
      ∧ (∀ k, k ≠ targetKey → objGet (objSet meta targetKey (JVal.str g)) k = objGet meta k) := by
  obtain ⟨meta, g, hc, h1, h2, hfix, hw, hinf, hc2⟩ := (validate_fixed_iff c p fix w c2).mp h
  exact ⟨meta, g, hc, hinf, hc2, objGet_objSet_self _ _ _,
    fun k hk => objGet_objSet_ne _ _ _ _ hk⟩

/-- Claim C3 witness: fixing a file with a `dir` hint and one unrelated
key yields the expected rewritten object. -/
theorem claim3_witness :
    ∃ meta g,
      (some (JVal.obj [("dir", JVal.str "PA"), ("EchoTime", JVal.num 42)]) : Option JVal)
          = some (JVal.obj meta)
      ∧ infer_direction_from_dir meta "sub-01_dwi.json" = .ok (some g)
      ∧ (some (JVal.obj [("dir", JVal.str "PA"), ("EchoTime", JVal.num 42),
            (targetKey, JVal.str "j-")]) : Option JVal)
          = some (JVal.obj (objSet meta targetKey (JVal.str g)))
      ∧ objGet (objSet meta targetKey (JVal.str g)) targetKey = some (JVal.str g)
      ∧ (∀ k, k ≠ targetKey → objGet (objSet meta targetKey (JVal.str g)) k = objGet meta k) :=
  claim3_fix_preserves _ "sub-01_dwi.json" true true _ rfl

/- ### Claim C4 -/

/-- Claim C4: the single conditional write happens only on the Fixed
outcome: for every file whose outcome is Valid, Parse-Error,
Invalid-Unfixed or Invalid-Uninferable the content after processing is
the content before. -/
theorem claim4_no_write_unless_fixed (c : Option JVal) (p : String) (fix w : Bool)
    (o : Outcome) (h : (validate_json c p fix w).1 = VRes.ok o) (ho : o ≠ Outcome.fixed) :
    (validate_json c p fix w).2 = c := by
  rcases validate_snd c p fix w with h1 | h1
  · have h2 : VRes.ok o = VRes.ok Outcome.fixed := h.symm.trans h1
    injection h2 with h3
    exact absurd h3 ho
  · exact h1

/-- Claim C4 witness: a file already holding a valid direction is left
byte-for-byte unchanged. -/
theorem claim4_witness :
    (validate_json (some (JVal.obj [(targetKey, JVal.str "j")])) "a.json" false true).2
      = some (JVal.obj [(targetKey, JVal.str "j")]) :=
  claim4_no_write_unless_fixed _ "a.json" false true Outcome.valid rfl (by decide)

/- ### Claim C5 -/

theorem validate_ok_again (c : Option JVal) (p : String) (o : Outcome) (c2 : Option JVal)
    (h : validate_json c p true true = (VRes.ok o, c2)) :
    ∃ o2, validate_json c2 p true true = (VRes.ok o2, c2) := by
  by_cases ho : o = Outcome.fixed
  · subst ho
    obtain ⟨meta, g, hc, h1, h2, _, _, hinf, hc2⟩ := (validate_fixed_iff c p true true c2).mp h
    have hfv : fieldValid c2 = true := by
      rw [hc2]
      exact fieldValid_set meta g (infer_ok_mem meta p g hinf)
    exact ⟨Outcome.valid, validate_of_fieldValid c2 p true true hfv⟩
  · have hsnd : c2 = c := by
      rcases validate_snd c p true true with h1 | h1
      · rw [h] at h1
        injection h1 with h2
        exact absurd h2 ho
      · rw [h] at h1
        exact h1
    subst hsnd
    exact ⟨o, h⟩

theorem runFiles_fix_files_idem (fs : List FileSt) :
    (runFiles true true ((runFiles true true fs).files)).files
      = (runFiles true true fs).files := by
  induction fs with
  | nil => rfl
  | cons f fs ih =>
      obtain ⟨p, c⟩ := f
      rcases h : validate_json c p true true with ⟨r, c2⟩
      cases r with
      | exn e =>
          have hc2 : c2 = c := by
            rcases validate_snd c p true true with h1 | h1
            · rw [h] at h1
              simp at h1
            · rw [h] at h1
              exact h1
          subst hc2
          simp only [runFiles, h]
      | ok o =>
          obtain ⟨o2, h2⟩ := validate_ok_again c p o c2 h
          simp only [runFiles, h]
          simp only [runFiles, h2]
          rw [ih]

/-- Claim C5: the fix pass is idempotent: per file, running it a second
time on the post-pass content leaves the content (hence the target
field) unchanged; a file whose field is already a valid enum member gets
outcome Valid with no write; re-validating a file fixed by the first
pass yields Valid with no write; and over a whole tree, a second fix
pass leaves every file's content exactly as it was after the first
pass. -/
theorem claim5_fix_idempotent (c : Option JVal) (p : String) :
    (validate_json ((validate_json c p true true).2) p true true).2
        = (validate_json c p true true).2
    ∧ (fieldValid c = true → validate_json c p true true = (VRes.ok .valid, c))
    ∧ (∀ c1, validate_json c p true true = (VRes.ok .fixed, c1) →
        validate_json c1 p true true = (VRes.ok .valid, c1))
    ∧ (∀ fs : List FileSt,
        (runFiles true true ((runFiles true true fs).files)).files
          = (runFiles true true fs).files) := by
  have hmain : ∀ c1, validate_json c p true true = (VRes.ok .fixed, c1) →
      validate_json c1 p true true = (VRes.ok .valid, c1) := by
    intro c1 h
    obtain ⟨meta, g, hc, h1, h2, _, _, hinf, hc2⟩ := (validate_fixed_iff c p true true c1).mp h
    have hfv : fieldValid c1 = true := by
      rw [hc2]
      exact fieldValid_set meta g (infer_ok_mem meta p g hinf)
    exact validate_of_fieldValid c1 p true true hfv
  refine ⟨?_, fun h => validate_of_fieldValid c p true true h, hmain, runFiles_fix_files_idem⟩
  rcases validate_snd c p true true with h1 | h1
  · have hpair : validate_json c p true true
        = (VRes.ok Outcome.fixed, (validate_json c p true true).2) := by
      rw [← h1]
    have h2 := hmain _ hpair
    rw [h2]
  · rw [h1]
    exact h1

/-- Claim C5 witness: an already-valid file is a no-op of outcome Valid,
and a file fixed in a first pass re-validates as Valid unchanged. -/
theorem claim5_witness :
    validate_json (some (JVal.obj [(targetKey, JVal.str "i-")])) "a.json" true true
        = (VRes.ok Outcome.valid, some (JVal.obj [(targetKey, JVal.str "i-")]))
    ∧ validate_json (some (JVal.obj [("dir", JVal.str "AP"), (targetKey, JVal.str "j")]))
        "b.json" true true
        = (VRes.ok Outcome.valid,
            some (JVal.obj [("dir", JVal.str "AP"), (targetKey, JVal.str "j")])) := by
  constructor
  · exact (claim5_fix_idempotent (some (JVal.obj [(targetKey, JVal.str "i-")])) "a.json").2.1 rfl
  · exact (claim5_fix_idempotent (some (JVal.obj [("dir", JVal.str "AP")])) "b.json").2.2.1 _ rfl

/- ### Claim C6 -/

/-- Claim C6 counterexample: one file is discovered, yet the exit status
is nonzero — the unhashable target field raises an uncaught `TypeError`,
which kills the interpreter with a nonzero status.  This refutes "exit
status is non-zero iff zero matching files are discovered". -/
theorem claim6_counterexample :
    ([⟨"sub-01_dwi.json", some (JVal.obj [(targetKey, JVal.arr [])])⟩] : List FileSt) ≠ []
    ∧ mainExit [⟨"sub-01_dwi.json", some (JVal.obj [(targetKey, JVal.arr [])])⟩] false true
        ≠ 0 := by
  exact ⟨List.cons_ne_nil _ _, by decide⟩

/-- Claim C6 amended: the exit status is zero iff at least one file was
discovered and the loop completed without an uncaught exception; it is
nonzero on zero discovered files or on an uncaught exception, and is not
affected by how many outcomes are invalid, unfixable or parse errors. -/
theorem claim6_exit_iff (files : List FileSt) (fix w : Bool) :
    mainExit files fix w = 0 ↔ files ≠ [] ∧ (runFiles fix w files).err = none := by
  unfold mainExit
  cases files with
  | nil => simp
  | cons f fs =>
      simp only [List.isEmpty_cons, Bool.false_eq_true, if_false, ne_eq,
        reduceCtorEq, not_false_eq_true, true_and]
      cases herr : (runFiles fix w (f :: fs)).err with
      | none => simp
      | some e => simp

/- ### Claim C7 -/

/-- Claim C7: an unreadable or malformed file yields the Parse-Error
outcome: its content is untouched (no inference, no write), it is not
counted as valid, and the loop continues over the remaining files
exactly as it would without it. -/
theorem claim7_parse_error_local (p : String) (fs : List FileSt) (fix w : Bool) :
    validate_json none p fix w = (VRes.ok .parseError, none)
    ∧ retTrue .parseError = false
    ∧ runFiles fix w (⟨p, none⟩ :: fs)
        = ⟨⟨p, none⟩ :: (runFiles fix w fs).files, (runFiles fix w fs).nValid,
            (runFiles fix w fs).err⟩ := by
  refine ⟨rfl, rfl, ?_⟩
  simp [runFiles, validate_json, retTrue]

/- ### Claim C8 -/

/-- Claim C8 counterexample: a failed write is not handled at all: on a
fixable file whose write fails, `validate_json` ends in an uncaught
`OSError`, the loop aborts before the next file, and the exit status is
nonzero — refuting "the error is surfaced and the run continues". -/
theorem claim8_counterexample :
    validate_json (some (JVal.obj [("dir", JVal.str "PA")])) "a.json" true false
        = (VRes.exn .osError, some (JVal.obj [("dir", JVal.str "PA")]))
    ∧ (runFiles true false
        [⟨"a.json", some (JVal.obj [("dir", JVal.str "PA")])⟩, ⟨"b.json", none⟩])
        = ⟨[⟨"a.json", some (JVal.obj [("dir", JVal.str "PA")])⟩, ⟨"b.json", none⟩],
            0, some PyError.osError⟩
    ∧ mainExit [⟨"a.json", some (JVal.obj [("dir", JVal.str "PA")])⟩, ⟨"b.json", none⟩]
        true false ≠ 0 := by
  exact ⟨rfl, rfl, by decide⟩

/-- Claim C8 amended: when the corrected file cannot be written, the
`OSError` escapes `validate_json` uncaught, the loop aborts at that file
(remaining files unprocessed and untouched) and the process exits with a
nonzero status; in the model the file keeps its pre-fix content (real
byte-level partial writes are outside the model's scope). -/
theorem claim8_write_failure_aborts (c : Option JVal) (p : String) (fs : List FileSt)
    (h : (validate_json c p true true).1 = VRes.ok Outcome.fixed) :
    validate_json c p true false = (VRes.exn .osError, c)
    ∧ runFiles true false (⟨p, c⟩ :: fs) = ⟨⟨p, c⟩ :: fs, 0, some PyError.osError⟩
    ∧ mainExit (⟨p, c⟩ :: fs) true false = 1 := by
  have hpair : validate_json c p true true
      = (VRes.ok Outcome.fixed, (validate_json c p true true).2) := by
    rw [← h]
  obtain ⟨meta, g, hc, h1, h2, _, _, hinf, _⟩ :=
    (validate_fixed_iff c p true true _).mp hpair
  have hv : validate_json c p true false = (VRes.exn .osError, c) := by
    subst hc
    simp [validate_json, h1, h2, hinf]
  refine ⟨hv, ?_, ?_⟩
  · simp [runFiles, hv]
  · simp [mainExit, runFiles, hv]

/-- Claim C8 amended witness: a concrete fixable file whose write fails
aborts a one-file run with an uncaught `OSError` and exit status 1. -/
theorem claim8_witness :
    validate_json (some (JVal.obj [("dir", JVal.str "IS")])) "c.json" true false
        = (VRes.exn .osError, some (JVal.obj [("dir", JVal.str "IS")]))
    ∧ runFiles true false [⟨"c.json", some (JVal.obj [("dir", JVal.str "IS")])⟩]
        = ⟨[⟨"c.json", some (JVal.obj [("dir", JVal.str "IS")])⟩], 0, some PyError.osError⟩
    ∧ mainExit [⟨"c.json", some (JVal.obj [("dir", JVal.str "IS")])⟩] true false = 1 :=
  claim8_write_failure_aborts _ "c.json" [] rfl

/- ### Claim C9 -/

theorem globMatch_starstar (ps : List CPat) (cs : List String) :
    globMatch (CPat.starstar :: ps) cs = true ↔
      ∃ pre t, pre ++ t = cs ∧ globMatch ps t = true := by
  have hmem : ∀ t : List String, t ∈ tailsL cs ↔ ∃ pre, pre ++ t = cs := by
    induction cs with
    | nil => intro t; simp [tailsL]
    | cons c cs2 ih =>
        intro t
        constructor
        · intro ht
          simp only [tailsL, List.mem_cons] at ht
          rcases ht with rfl | ht2
          · exact ⟨[], rfl⟩
          · obtain ⟨pre, hp⟩ := (ih t).mp ht2
            exact ⟨c :: pre, by rw [List.cons_append, hp]⟩
        · rintro ⟨pre, hp⟩
          simp only [tailsL, List.mem_cons]
          cases pre with
          | nil => left; simpa using hp
          | cons a pre2 =>
              right
              rw [List.cons_append] at hp
              injection hp with h1 h2
              exact (ih t).mpr ⟨pre2, h2⟩
  show (tailsL cs).any (fun t => globMatch ps t) = true ↔ _
  rw [List.any_eq_true]
  constructor
  · rintro ⟨t, ht, hm⟩
    obtain ⟨pre, hp⟩ := (hmem t).mp ht
    exact ⟨pre, t, hp, hm⟩
  · rintro ⟨pre, t, hp, hm⟩
    exact ⟨t, (hmem t).mpr ⟨pre, hp⟩, hm⟩

theorem globMatch_tail2 (cs : List String) :
    globMatch [CPat.lit "dwi", CPat.endsP ".json"] cs = true ↔
      ∃ f, cs = ["dwi", f] ∧ sEnds f ".json" = true := by
  cases cs with
  | nil => simp [globMatch]
  | cons c cs2 =>
      cases cs2 with
      | nil => simp [globMatch]
      | cons f cs3 =>
          cases cs3 with
          | nil =>
              show ((c == "dwi") && (sEnds f ".json" && ([] : List String).isEmpty)) = true ↔ _
              simp only [List.isEmpty_nil, Bool.and_true, Bool.and_eq_true, beq_iff_eq]
              constructor
              · rintro ⟨h1, h2⟩
                exact ⟨f, by rw [h1], h2⟩
              · rintro ⟨f1, heq, h2⟩
                injection heq with h1 h3
                injection h3 with h3 _
                subst h3
                exact ⟨h1, h2⟩
          | cons x xs =>
              show ((c == "dwi") && (sEnds f ".json" && (x :: xs).isEmpty)) = true ↔ _
              simp

theorem globMatch_tail4 (cs : List String) :
    globMatch [CPat.startsP "sub-", CPat.starstar, CPat.lit "dwi", CPat.endsP ".json"] cs
        = true ↔
      ∃ s ms f, cs = s :: (ms ++ ["dwi", f])
        ∧ sStarts s "sub-" = true ∧ sEnds f ".json" = true := by
  cases cs with
  | nil =>
      constructor
      · intro h
        exact absurd h (by decide)
      · rintro ⟨s, ms, f, heq, _, _⟩
        exact absurd heq (by simp)
  | cons s0 cs2 =>
      show (sStarts s0 "sub-"
          && globMatch [CPat.starstar, CPat.lit "dwi", CPat.endsP ".json"] cs2) = true ↔ _
      rw [Bool.and_eq_true, globMatch_starstar]
      constructor
      · rintro ⟨hs, pre, t, hp, hm⟩
        obtain ⟨f, rfl, hf⟩ := (globMatch_tail2 t).mp hm
        exact ⟨s0, pre, f, by rw [hp], hs, hf⟩
      · rintro ⟨s, ms, f, heq, hs, hf⟩
        injection heq with h1 h2
        subst h1
        exact ⟨hs, ms, ["dwi", f], h2.symm, (globMatch_tail2 _).mpr ⟨f, rfl, hf⟩⟩

theorem globMatch_dwi (comps : List String) :
    globMatch dwiPattern comps = true ↔
      ∃ ds s ms f, comps = ds ++ s :: (ms ++ ["dwi", f])
        ∧ sStarts s "sub-" = true ∧ sEnds f ".json" = true := by
  unfold dwiPattern
  rw [globMatch_starstar]
  constructor
  · rintro ⟨pre, t, hp, hm⟩
    obtain ⟨s, ms, f, rfl, hs, hf⟩ := (globMatch_tail4 t).mp hm
    exact ⟨pre, s, ms, f, hp.symm, hs, hf⟩
  · rintro ⟨ds, s, ms, f, rfl, hs, hf⟩
    exact ⟨ds, s :: (ms ++ ["dwi", f]), rfl, (globMatch_tail4 _).mpr ⟨s, ms, f, rfl, hs, hf⟩⟩

theorem dwi_claimMatch (comps : List String) :
    globMatch dwiPattern comps = true ↔ claimMatch comps := by
  rw [globMatch_dwi]
  constructor
  · rintro ⟨ds, s, ms, f, rfl, hs, hf⟩
    refine ⟨ds ++ s :: ms, f, ?_, hf, s, ?_, hs⟩
    · simp
    · simp
  · rintro ⟨init, f, rfl, hf, s, hsmem, hs⟩
    obtain ⟨ds, ms, rfl⟩ := List.append_of_mem hsmem
    exact ⟨ds, s, ms, f, by simp, hs, hf⟩

/-- Claim C9: the single recursive discovery pattern
`**/sub-*/**/dwi/*.json` (what `rglob("sub-*/**/dwi/*.json")` matches,
over path components relative to the root) accepts exactly the files
whose name matches `*.json`, whose immediate parent component is
literally `dwi`, and which have a `sub-`-prefixed ancestor component at
any depth; in particular the session-less layout, the session-organized
layout and deeper nestings all match, while a `dwi` folder with no
`sub-` ancestor does not. -/
theorem claim9_discovery (comps : List String) :
    (globMatch dwiPattern comps = true ↔ claimMatch comps)
    ∧ globMatch dwiPattern ["sub-01", "dwi", "sub-01_dwi.json"] = true
    ∧ globMatch dwiPattern ["sub-02", "ses-01", "dwi", "sub-02_dwi.json"] = true
    ∧ globMatch dwiPattern ["extra", "sub-03", "a", "b", "dwi", "x.json"] = true
    ∧ globMatch dwiPattern ["dwi", "x.json"] = false :=
  ⟨dwi_claimMatch comps, by decide, by decide, by decide, by decide⟩

/- ### Claim C10 -/

/-- Claim C10: the inference function, whenever it returns a direction,
returns a member of the six-element valid set; hence every value the
tool writes into the target field is a valid enum member, and a file it
fixed validates as Valid (with unchanged content) on any later run. -/
theorem claim10_inferred_always_valid :
    (∀ (meta : JObj) (p g : String),
        infer_direction_from_dir meta p = .ok (some g) →
          VALID_DIRECTIONS.contains g = true)
    ∧ (∀ (c : Option JVal) (p : String) (fix w : Bool) (c2 : Option JVal),
        validate_json c p fix w = (VRes.ok .fixed, c2) →
          fieldValid c2 = true
          ∧ ∀ (p2 : String) (fix2 w2 : Bool),
              validate_json c2 p2 fix2 w2 = (VRes.ok .valid, c2)) := by
  refine ⟨infer_ok_mem, ?_⟩
  intro c p fix w c2 h
  obtain ⟨meta, g, hc, h1, h2, _, _, hinf, hc2⟩ := (validate_fixed_iff c p fix w c2).mp h
  have hfv : fieldValid c2 = true := by
    rw [hc2]
    exact fieldValid_set meta g (infer_ok_mem meta p g hinf)
  exact ⟨hfv, fun p2 fix2 w2 => validate_of_fieldValid c2 p2 fix2 w2 hfv⟩

/-- Claim C10 witness: the direction inferred from a `"si"` hint is in
the valid set, and the fixed file validates as Valid on any later run. -/
theorem claim10_witness :
    VALID_DIRECTIONS.contains "k" = true
    ∧ (fieldValid (some (JVal.obj [("dir", JVal.str "si"), (targetKey, JVal.str "k")])) = true
        ∧ ∀ (p2 : String) (fix2 w2 : Bool),
            validate_json
                (some (JVal.obj [("dir", JVal.str "si"), (targetKey, JVal.str "k")]))
                p2 fix2 w2
              = (VRes.ok .valid,
                  some (JVal.obj [("dir", JVal.str "si"), (targetKey, JVal.str "k")]))) := by
  constructor
  · exact claim10_inferred_always_valid.1 [("dir", JVal.str "si")] "p.json" "k" rfl
  · exact claim10_inferred_always_valid.2
      (some (JVal.obj [("dir", JVal.str "si")])) "p.json" true true _ rfl

end PhaseEnc
